import Mathlib

/-!
# Trajectory matching (`04-ICP/trajectory-matching.cpp`)

A shallow embedding of the three functions of `trajectory-matching.cpp`:
`LoadTrajectory`, `EstimateTransform` and `DrawTrajectory`.

Conventions of the embedding.

* `double` is read as an exact field `K` (the theorems are stated for every
  linearly ordered field, so in particular for the reals; the concrete
  evaluations are carried out over the rationals).
* `std::vector<Sophus::SE3>` is a `List (SE3 K)`; `v[i]` past the end of the
  vector is undefined behaviour in C++ and is the fault `Fault.outOfBounds`
  here.
* In `EstimateTransform` the `int` counters are read as mathematical integers
  (a trajectory has fewer than `2^31` poses). In `DrawTrajectory`, whose loop
  mixes `int` and `size_t`, both conversions are explicit: `toInt` for
  `const int N = ground_truth.size()` and `toSizeT` for the comparison
  `i < N - 1`.
* `Eigen::JacobiSVD` is a library step: it is a parameter `svd` of
  `EstimateTransform`, constrained in the theorems by `IsSVD`.
-/

namespace TrajectoryMatching

open Matrix

/-- A 3-vector of `Eigen::Vector3d`. -/
abbrev Vec3 (K : Type) := Fin 3 → K

/-- A 3x3 matrix of `Eigen::Matrix3d`. -/
abbrev Mat3 (K : Type) := Matrix (Fin 3) (Fin 3) K

/-- The pose `Sophus::SE3(q, t)`: the quaternion handed to the constructor and
the translation. Only `translation()` is read by the estimator and renderer. -/
structure SE3 (K : Type) where
  /-- quaternion coefficients in the order `x, y, z, w` -/
  quaternion : Fin 4 → K
  /-- the translation part, `translation()` -/
  translation : Vec3 K

instance {K : Type} [Zero K] : Inhabited (SE3 K) := ⟨⟨0, 0⟩⟩

/-- A trajectory, `vector<Sophus::SE3, Eigen::aligned_allocator<Sophus::SE3>>`. -/
abbrev Trajectory (K : Type) := List (SE3 K)

/-- The ways a call can go wrong. `invalidInput` is the rejection the
specification asks for; `outOfBounds` is a read past the end of a vector;
`divisionByZero` is the quotient `0 / 0` of the centroid step, a NaN in IEEE
arithmetic that an exact field cannot hold. -/
inductive Fault where
  | invalidInput
  | outOfBounds
  | divisionByZero
  deriving DecidableEq, Repr

/-- The read `v[i]` of a `std::vector`. -/
def readAt {K : Type} (v : Trajectory K) (i : Nat) : Except Fault (SE3 K) :=
  match v[i]? with
  | some p => .ok p
  | none => .error .outOfBounds

/-- What `Eigen::JacobiSVD<Matrix3d>` hands back: `matrixU()`, `singularValues()`
and `matrixV()`. -/
structure SVDResult (K : Type) where
  /-- left singular vectors, `matrixU()` -/
  U : Mat3 K
  /-- singular values, `singularValues()` -/
  sigma : Vec3 K
  /-- right singular vectors, `matrixV()` -/
  V : Mat3 K

section Estimator

variable {K : Type} [Field K]

/-- The state of `ce`, `cg` after `i` iterations of the first loop of
`EstimateTransform` (lines 113-117). -/
def centerLoop (estimated ground_truth : Trajectory K) :
    Nat → Except Fault (Vec3 K × Vec3 K)
  | 0 => .ok (0, 0)
  | i + 1 => do
    let c ← centerLoop estimated ground_truth i
    let e ← readAt estimated i
    let g ← readAt ground_truth i
    .ok (c.1 + e.translation, c.2 + g.translation)

/-- The state of `W` after `i` iterations of the second loop of
`EstimateTransform` (lines 121-126). -/
def covarianceLoop (estimated ground_truth : Trajectory K) (ce cg : Vec3 K) :
    Nat → Except Fault (Mat3 K)
  | 0 => .ok 0
  | i + 1 => do
    let W ← covarianceLoop estimated ground_truth ce cg i
    let e ← readAt estimated i
    let g ← readAt ground_truth i
    let qe := e.translation - ce
    let qg := g.translation - cg
    .ok (W + Matrix.vecMulVec qg qe)

/-- Lines 109-126 of `EstimateTransform`: the centres `ce`, `cg` and the
matrix `W` handed to the decomposition. -/
def svdInput (estimated ground_truth : Trajectory K) :
    Except Fault (Vec3 K × Vec3 K × Mat3 K) := do
  let N := ground_truth.length
  let c ← centerLoop estimated ground_truth N
  if N = 0 then .error .divisionByZero
  else
    let ce : Vec3 K := fun j => c.1 j / (N : K)
    let cg : Vec3 K := fun j => c.2 j / (N : K)
    let W ← covarianceLoop estimated ground_truth ce cg N
    .ok (ce, cg, W)

/-- The function `EstimateTransform` (lines 104-132); the results `R`, `t`
written through the reference parameters are returned as a pair. -/
def EstimateTransform (svd : Mat3 K → SVDResult K)
    (estimated ground_truth : Trajectory K) : Except Fault (Mat3 K × Vec3 K) := do
  let (ce, cg, W) ← svdInput estimated ground_truth
  let s := svd W
  let R := s.U * s.Vᵀ
  let t := cg - R *ᵥ ce
  .ok (R, t)

end Estimator

/-! ## The loader, `LoadTrajectory` -/

section Loader

variable {K : Type}

/-- The locals of `LoadTrajectory` between two reads: the buffer `value[D]`,
the index `d`, and the two output vectors. -/
structure LoaderState (K : Type) where
  /-- the buffer `double value[D]`, by index -/
  value : Nat → K
  /-- the index `d` of the next slot -/
  d : Nat
  /-- the output parameter `estimated` -/
  estimated : Trajectory K
  /-- the output parameter `ground_truth` -/
  ground_truth : Trajectory K

/-- The constant `D` of `LoadTrajectory`. -/
def D : Nat := 16

/-- One pass through the body of `while (trajectory >> value[d])` (lines 76-101):
`x` is the number the extraction stored into `value[d]`. -/
def loadStep (s : LoaderState K) (x : K) : LoaderState K :=
  let value := Function.update s.value s.d x
  let d := (s.d + 1) % D
  if d = 0 then
    let te : Vec3 K := ![value 1, value 2, value 3]
    let qe : Fin 4 → K := ![value 4, value 5, value 6, value 7]
    let tg : Vec3 K := ![value 9, value 10, value 11]
    let qg : Fin 4 → K := ![value 12, value 13, value 14, value 15]
    { value := value, d := d,
      estimated := s.estimated ++ [⟨qe, te⟩],
      ground_truth := s.ground_truth ++ [⟨qg, tg⟩] }
  else
    { value := value, d := d, estimated := s.estimated, ground_truth := s.ground_truth }

/-- The function `LoadTrajectory` (lines 62-102). `tokens` are the numbers the
stream yields before the first failed extraction, `value0` the uninitialised
contents of the buffer; `estimated` and `ground_truth` are the vectors passed
in, and the pair returned is their contents on return. -/
def LoadTrajectory (tokens : List K) (value0 : Nat → K)
    (estimated ground_truth : Trajectory K) : Trajectory K × Trajectory K :=
  let s := tokens.foldl loadStep ⟨value0, 0, estimated, ground_truth⟩
  (s.estimated, s.ground_truth)

end Loader

/-! ## The renderer, `DrawTrajectory` -/

section Renderer

variable {K : Type} [Field K]

/-- The two colours of `glColor3f`: `(0, 0, 1)` for the estimated trajectory,
`(1, 0, 0)` for the ground truth. -/
inductive Colour where
  | blue
  | red
  deriving DecidableEq, Repr

/-- What `DrawTrajectory` does that can be observed from outside. -/
inductive DrawEvent (K : Type) where
  /-- a line written to `cerr` -/
  | cerr (msg : String)
  /-- the call `pangolin::CreateWindowAndBind` and the set-up of the view (lines 145-157) -/
  | createWindow
  /-- the start of a frame, `glClear` to `glLineWidth` (lines 161-166) -/
  | clear
  /-- one segment: `glColor3f`, `glBegin(GL_LINES)`, two `glVertex3d`, `glEnd` -/
  | line (c : Colour) (a b : Vec3 K)
  /-- the call `pangolin::FinishFrame` -/
  | finishFrame

/-- The conversion `size_t → int` of `const int N = ground_truth.size()`: the
size modulo `2^32`, read as a signed 32-bit number. -/
def toInt (n : Nat) : Int :=
  ((n : Int) + 2 ^ 31) % 2 ^ 32 - 2 ^ 31

/-- The conversion `int → size_t` in the comparison `i < N - 1`: a
non-negative value is kept, a negative one wraps around to `x + 2^64`. -/
def toSizeT (x : Int) : Nat :=
  if 0 ≤ x then x.toNat else (x + 2 ^ 64).toNat

/-- The loop `for (size_t i = 0; i < N - 1; i++)` of `DrawTrajectory`
(lines 168-185) from the index `i` on, `bound` being `N - 1` as a `size_t`. -/
def segmentLoop (estimated ground_truth : Trajectory K) (R : Mat3 K) (t : Vec3 K)
    (bound i : Nat) : Except Fault (List (DrawEvent K)) :=
  if i < bound then do
    let e1 ← readAt estimated i
    let e2 ← readAt estimated (i + 1)
    let te1 := R *ᵥ e1.translation + t
    let te2 := R *ᵥ e2.translation + t
    let g1 ← readAt ground_truth i
    let g2 ← readAt ground_truth (i + 1)
    let rest ← segmentLoop estimated ground_truth R t bound (i + 1)
    .ok (.line .blue te1 te2 :: .line .red g1.translation g2.translation :: rest)
  else .ok []
termination_by bound - i

/-- One pass through the body of `while (pangolin::ShouldQuit() == false)`
(lines 161-186). -/
def drawFrame (estimated ground_truth : Trajectory K) (R : Mat3 K) (t : Vec3 K) :
    Except Fault (List (DrawEvent K)) := do
  let N : Int := toInt ground_truth.length
  let segments ← segmentLoop estimated ground_truth R t (toSizeT (N - 1)) 0
  .ok (.clear :: segments ++ [.finishFrame])

/-- The display loop run for `frames` passes, `frames` being the number of
times `pangolin::ShouldQuit()` answers `false` before it answers `true`. -/
def displayLoop (estimated ground_truth : Trajectory K) (R : Mat3 K) (t : Vec3 K) :
    Nat → Except Fault (List (DrawEvent K))
  | 0 => .ok []
  | frames + 1 => do
    let first ← drawFrame estimated ground_truth R t
    let rest ← displayLoop estimated ground_truth R t frames
    .ok (first ++ rest)

/-- The function `DrawTrajectory` (lines 134-188), as the list of its events. -/
def DrawTrajectory (estimated ground_truth : Trajectory K) (R : Mat3 K) (t : Vec3 K)
    (frames : Nat) : Except Fault (List (DrawEvent K)) :=
  if estimated.isEmpty || ground_truth.isEmpty || estimated.length != ground_truth.length then
    .ok [.cerr "The trajectories are not aligned!"]
  else do
    let drawn ← displayLoop estimated ground_truth R t frames
    .ok (.createWindow :: drawn)

end Renderer

/-! ## Notions used to state the properties -/

section Notions

variable {K : Type} [Field K]

/-- The translation of the `i`-th pose of a trajectory (zero past the end). -/
def pt (v : Trajectory K) (i : Nat) : Vec3 K := (v[i]?.getD default).translation

/-- The segments of one frame: for `i = 0, ..., n - 1` the estimated segment
from `R E_i + t` to `R E_(i+1) + t`, then the ground-truth one from `G_i` to
`G_(i+1)`. -/
def frameSegments (E G : Trajectory K) (R : Mat3 K) (t : Vec3 K) (n : Nat) :
    List (DrawEvent K) :=
  (List.range n).flatMap fun i =>
    [.line .blue (R *ᵥ pt E i + t) (R *ᵥ pt E (i + 1) + t), .line .red (pt G i) (pt G (i + 1))]

end Notions

section LoaderNotions

variable {K : Type}

/-- The estimated pose of record `k` of a token stream. -/
def recordE [Zero K] (v : List K) (k : Nat) : SE3 K :=
  ⟨![v.getD (16 * k + 4) 0, v.getD (16 * k + 5) 0, v.getD (16 * k + 6) 0, v.getD (16 * k + 7) 0],
   ![v.getD (16 * k + 1) 0, v.getD (16 * k + 2) 0, v.getD (16 * k + 3) 0]⟩

/-- The ground-truth pose of record `k` of a token stream. -/
def recordG [Zero K] (v : List K) (k : Nat) : SE3 K :=
  ⟨![v.getD (16 * k + 12) 0, v.getD (16 * k + 13) 0, v.getD (16 * k + 14) 0,
     v.getD (16 * k + 15) 0],
   ![v.getD (16 * k + 9) 0, v.getD (16 * k + 10) 0, v.getD (16 * k + 11) 0]⟩

end LoaderNotions

/-! ## Concrete trajectories, over the rationals -/

/-- A pose with the identity quaternion and the translation `(x, y, z)`. -/
def pose (x y z : ℚ) : SE3 ℚ := ⟨![0, 0, 0, 1], ![x, y, z]⟩

/-- The reflection `diag(1, 1, -1)` in the plane `z = 0`. -/
def flipZ : Mat3 ℚ := Matrix.diagonal ![1, 1, -1]

/-- Two points on the `x` axis. -/
def segmentE : Trajectory ℚ := [pose 0 0 0, pose 2 0 0]

/-- The points of `segmentE` moved by `(1, 1, 1)`. -/
def segmentG : Trajectory ℚ := [pose 1 1 1, pose 3 1 1]

/-- A trajectory of `2^31 + 5` poses, all at the origin. -/
def manyPoses : Trajectory ℚ := List.replicate (2 ^ 31 + 5) (pose 0 0 0)

theorem readAt_of_lt {K : Type} [Zero K] (v : Trajectory K) (i : Nat) (h : i < v.length) :
    readAt v i = .ok (v[i]?.getD default) := by
  simp [readAt, List.getElem?_eq_getElem h]

theorem readAt_of_le {K : Type} (v : Trajectory K) (i : Nat) (h : v.length ≤ i) :
    readAt v i = .error .outOfBounds := by
  simp [readAt, List.getElem?_eq_none h]

section Loops

variable {K : Type} [Field K]

end Loops

/-! ## Algebra of the least-squares cost -/

section Algebra

variable {K : Type} [LinearOrderedField K]

end Algebra

/-! ## The loader's invariant -/

section LoaderLemmas

variable {K : Type}

theorem getD_snoc_lt [Zero K] (v : List K) (x : K) (i : Nat) (h : i < v.length) :
    (v ++ [x]).getD i 0 = v.getD i 0 := by
  simp [List.getD_eq_getElem?_getD, List.getElem?_append_left h]

theorem getD_snoc_length [Zero K] (v : List K) (x : K) :
    (v ++ [x]).getD v.length 0 = x := by
  simp [List.getD_eq_getElem?_getD]

theorem recordE_snoc [Zero K] (v : List K) (x : K) (k : Nat) (h : k < v.length / 16) :
    recordE (v ++ [x]) k = recordE v k := by
  have h1 : 16 * k + 16 ≤ v.length := by omega
  simp only [recordE]
  rw [getD_snoc_lt v x _ (by omega), getD_snoc_lt v x _ (by omega), getD_snoc_lt v x _ (by omega),
    getD_snoc_lt v x _ (by omega), getD_snoc_lt v x _ (by omega), getD_snoc_lt v x _ (by omega),
    getD_snoc_lt v x _ (by omega)]

theorem recordG_snoc [Zero K] (v : List K) (x : K) (k : Nat) (h : k < v.length / 16) :
    recordG (v ++ [x]) k = recordG v k := by
  have h1 : 16 * k + 16 ≤ v.length := by omega
  simp only [recordG]
  rw [getD_snoc_lt v x _ (by omega), getD_snoc_lt v x _ (by omega), getD_snoc_lt v x _ (by omega),
    getD_snoc_lt v x _ (by omega), getD_snoc_lt v x _ (by omega), getD_snoc_lt v x _ (by omega),
    getD_snoc_lt v x _ (by omega)]

theorem loader_invariant [Zero K] (value0 : Nat → K) (e0 g0 : Trajectory K) (v : List K) :
    (v.foldl loadStep ⟨value0, 0, e0, g0⟩).d = v.length % 16 ∧
    (v.foldl loadStep ⟨value0, 0, e0, g0⟩).estimated =
      e0 ++ (List.range (v.length / 16)).map (recordE v) ∧
    (v.foldl loadStep ⟨value0, 0, e0, g0⟩).ground_truth =
      g0 ++ (List.range (v.length / 16)).map (recordG v) ∧
    ∀ j, j < v.length % 16 →
      (v.foldl loadStep ⟨value0, 0, e0, g0⟩).value j = v.getD (16 * (v.length / 16) + j) 0 := by
  induction v using List.reverseRecOn with
  | nil => simp
  | append_singleton v x ih =>
    obtain ⟨hd, hE, hG, hval⟩ := ih
    rw [List.foldl_append, List.foldl_cons, List.foldl_nil]
    set s := v.foldl loadStep ⟨value0, 0, e0, g0⟩ with hs
    have hlen : (v ++ [x]).length = v.length + 1 := by simp
    have hupd : ∀ j, j < v.length % 16 + 1 →
        Function.update s.value s.d x j = (v ++ [x]).getD (16 * (v.length / 16) + j) 0 := by
      intro j hj
      by_cases hjd : j = s.d
      · subst hjd
        rw [Function.update_same, hd]
        have : 16 * (v.length / 16) + v.length % 16 = v.length := Nat.div_add_mod _ _
        rw [this, getD_snoc_length]
      · rw [Function.update_noteq hjd, hval j (by omega), getD_snoc_lt v x _ (by omega)]
    have hmapE : (List.range (v.length / 16)).map (recordE (v ++ [x])) =
        (List.range (v.length / 16)).map (recordE v) :=
      List.map_congr_left fun k hk => recordE_snoc v x k (List.mem_range.mp hk)
    have hmapG : (List.range (v.length / 16)).map (recordG (v ++ [x])) =
        (List.range (v.length / 16)).map (recordG v) :=
      List.map_congr_left fun k hk => recordG_snoc v x k (List.mem_range.mp hk)
    by_cases h0 : (s.d + 1) % D = 0
    · have hm : v.length % 16 = 15 := by rw [hd] at h0; simp only [D] at h0; omega
      have hq : (v.length + 1) / 16 = v.length / 16 + 1 := by omega
      have hr : (v.length + 1) % 16 = 0 := by omega
      simp only [loadStep, h0, if_true, hlen, hq, hr]
      refine ⟨trivial, ?_, ?_, fun j hj => absurd hj (Nat.not_lt_zero j)⟩
      · rw [hE, List.range_succ, List.map_append, hmapE, List.append_assoc]
        congr 2
        simp only [List.map_cons, List.map_nil, recordE]
        rw [hupd 1 (by omega), hupd 2 (by omega), hupd 3 (by omega), hupd 4 (by omega),
          hupd 5 (by omega), hupd 6 (by omega), hupd 7 (by omega)]
      · rw [hG, List.range_succ, List.map_append, hmapG, List.append_assoc]
        congr 2
        simp only [List.map_cons, List.map_nil, recordG]
        rw [hupd 9 (by omega), hupd 10 (by omega), hupd 11 (by omega), hupd 12 (by omega),
          hupd 13 (by omega), hupd 14 (by omega), hupd 15 (by omega)]
    · have hm : v.length % 16 ≠ 15 := by rw [hd] at h0; simp only [D] at h0; omega
      have hq : (v.length + 1) / 16 = v.length / 16 := by omega
      have hr : (v.length + 1) % 16 = v.length % 16 + 1 := by omega
      simp only [loadStep, h0, if_false, hlen, hq, hr]
      refine ⟨?_, ?_, ?_, fun j hj => hupd j hj⟩
      · rw [hd]; simp only [D]; omega
      · rw [hE, hmapE]
      · rw [hG, hmapG]

end LoaderLemmas

/-! ## The renderer's loop -/

section RendererLemmas

variable {K : Type} [Field K]

theorem toInt_of_lt (n : Nat) (h : n < 2 ^ 31) : toInt n = n := by
  unfold toInt
  omega

theorem toSizeT_pred (n : Nat) (h : n ≠ 0) (hn : n < 2 ^ 31) :
    toSizeT (toInt n - 1) = n - 1 := by
  rw [toInt_of_lt n hn]
  unfold toSizeT
  rw [if_pos (by omega)]
  omega

theorem segmentLoop_overrun (E G : Trajectory K) (R : Mat3 K) (t : Vec3 K) (bound : Nat)
    (hlen : E.length = G.length) (hb : G.length ≤ bound) (k : Nat) :
    ∀ i, i + k + 1 = G.length → segmentLoop E G R t bound i = .error .outOfBounds := by
  induction k with
  | zero =>
    intro i hi
    rw [segmentLoop, if_pos (by omega), readAt_of_lt E i (by omega),
      readAt_of_le E (i + 1) (by omega)]
    rfl
  | succ k ih =>
    intro i hi
    rw [segmentLoop, if_pos (by omega), ih (i + 1) (by omega)]
    rw [readAt_of_lt E i (by omega), readAt_of_lt E (i + 1) (by omega),
      readAt_of_lt G i (by omega), readAt_of_lt G (i + 1) (by omega)]
    rfl

theorem segmentLoop_eq (E G : Trajectory K) (R : Mat3 K) (t : Vec3 K) (bound : Nat)
    (hE : bound < E.length) (hG : bound < G.length) (k : Nat) :
    ∀ i, i + k = bound →
      segmentLoop E G R t bound i =
        .ok (((List.range k).flatMap fun j =>
          [DrawEvent.line .blue (R *ᵥ pt E (i + j) + t) (R *ᵥ pt E (i + j + 1) + t),
            DrawEvent.line .red (pt G (i + j)) (pt G (i + j + 1))])) := by
  induction k with
  | zero =>
    intro i hi
    rw [segmentLoop, if_neg (by omega)]
    simp
  | succ k ih =>
    intro i hi
    rw [segmentLoop, if_pos (by omega), ih (i + 1) (by omega)]
    rw [readAt_of_lt E i (by omega), readAt_of_lt E (i + 1) (by omega),
      readAt_of_lt G i (by omega), readAt_of_lt G (i + 1) (by omega)]
    simp only [List.range_succ_eq_map, List.flatMap_cons, List.flatMap_map]
    simp only [bind, Except.bind, pt, Function.comp, List.cons_append, List.nil_append,
      Nat.add_zero]
    congr 3
    apply List.flatMap_congr ?_
    intro j _
    simp only [Nat.add_assoc, Nat.add_comm 1 j]

theorem drawFrame_eq (E G : Trajectory K) (R : Mat3 K) (t : Vec3 K)
    (hE : E ≠ []) (hlen : E.length = G.length) (hN : G.length < 2 ^ 31) :
    drawFrame E G R t =
      .ok (DrawEvent.clear :: frameSegments E G R t (G.length - 1) ++ [DrawEvent.finishFrame]) := by
  have hn : G.length ≠ 0 := by
    rw [← hlen]; exact fun h => hE (List.length_eq_zero.mp h)
  have h := segmentLoop_eq E G R t (G.length - 1) (by omega) (by omega) (G.length - 1) 0
    (by omega)
  simp only [Nat.zero_add] at h
  simp only [drawFrame, toSizeT_pred G.length hn hN, h, frameSegments]
  rfl

theorem displayLoop_eq (E G : Trajectory K) (R : Mat3 K) (t : Vec3 K)
    (f : List (DrawEvent K)) (h : drawFrame E G R t = .ok f) (frames : Nat) :
    displayLoop E G R t frames = .ok (List.replicate frames f).flatten := by
  induction frames with
  | zero => simp [displayLoop]
  | succ n ih =>
    simp only [displayLoop, h, ih, List.replicate_succ, List.flatten_cons]
    rfl

theorem frameSegments_succ (E G : Trajectory K) (R : Mat3 K) (t : Vec3 K) (n : Nat) :
    frameSegments E G R t (n + 1) =
      frameSegments E G R t n ++
        [.line .blue (R *ᵥ pt E n + t) (R *ᵥ pt E (n + 1) + t), .line .red (pt G n) (pt G (n + 1))] := by
  simp [frameSegments, List.range_succ, List.flatMap_append]

theorem frameSegments_length (E G : Trajectory K) (R : Mat3 K) (t : Vec3 K) (n : Nat) :
    (frameSegments E G R t n).length = 2 * n := by
  induction n with
  | zero => simp [frameSegments]
  | succ n ih => rw [frameSegments_succ, List.length_append, ih]; simp; omega

theorem frameSegments_getElem (E G : Trajectory K) (R : Mat3 K) (t : Vec3 K) (n i : Nat)
    (h : i < n) :
    (frameSegments E G R t n)[2 * i]? =
        some (.line .blue (R *ᵥ pt E i + t) (R *ᵥ pt E (i + 1) + t)) ∧
      (frameSegments E G R t n)[2 * i + 1]? = some (.line .red (pt G i) (pt G (i + 1))) := by
  induction n with
  | zero => omega
  | succ n ih =>
    rw [frameSegments_succ]
    have hl := frameSegments_length E G R t n
    by_cases hi : i < n
    · rw [List.getElem?_append_left (by omega), List.getElem?_append_left (by omega)]
      exact ih hi
    · have hin : i = n := by omega
      subst hin
      rw [List.getElem?_append_right (by omega), List.getElem?_append_right (by omega), hl]
      simp

end RendererLemmas

/-! ## Shared consequences of the closed forms -/

section Shared

variable {K : Type} [LinearOrderedField K]

end Shared

/-! ## Evaluation on the concrete trajectories -/

section Data

end Data

/-! ## The claims -/

section Claims

variable {K : Type} [LinearOrderedField K]

end Claims


section ClaimsField

variable {K : Type} [Field K]

/-- Claim C4 (empty-input rejection), evaluated on the code. The loader turns
an empty token stream into two empty trajectories, and on them
`EstimateTransform` reaches the division of the centres by `N = 0`; it does
not reject the call with `invalidInput`. -/
theorem EstimateTransform_empty (svd : Mat3 K → SVDResult K) (value0 : Nat → K) :
    LoadTrajectory ([] : List K) value0 [] [] = ([], []) ∧
      EstimateTransform svd [] [] = .error .divisionByZero ∧
      EstimateTransform svd [] [] ≠ .error .invalidInput := by
  refine ⟨rfl, rfl, ?_⟩
  intro h
  cases h

/-- Claim C9 (renderer precondition guard). `DrawTrajectory` writes the one
line to `cerr` and returns, with no window and no drawing, exactly when
`estimated` is empty, `ground_truth` is empty or the sizes differ; in every
other case it creates the window and enters the display loop, whose outcome is
its own; for trajectories of fewer than `2^31` poses every frame is drawn. -/
theorem DrawTrajectory_guard (E G : Trajectory K) (R : Mat3 K) (t : Vec3 K) (frames : Nat) :
    ((E = [] ∨ G = [] ∨ E.length ≠ G.length) ↔
      DrawTrajectory E G R t frames = .ok [.cerr "The trajectories are not aligned!"]) ∧
    (¬ (E = [] ∨ G = [] ∨ E.length ≠ G.length) →
      DrawTrajectory E G R t frames =
        (displayLoop E G R t frames).map fun drawn => .createWindow :: drawn) ∧
    (¬ (E = [] ∨ G = [] ∨ E.length ≠ G.length) → G.length < 2 ^ 31 →
      ∃ f, drawFrame E G R t = .ok f ∧
        DrawTrajectory E G R t frames =
          .ok (.createWindow :: (List.replicate frames f).flatten)) := by
  by_cases hg : E = [] ∨ G = [] ∨ E.length ≠ G.length
  · have hc : (E.isEmpty || G.isEmpty || E.length != G.length) = true := by
      simpa [List.isEmpty_iff, or_assoc] using hg
    have h1 : DrawTrajectory E G R t frames = .ok [.cerr "The trajectories are not aligned!"] := by
      simp only [DrawTrajectory, hc, if_true]
    exact ⟨⟨fun _ => h1, fun _ => hg⟩, fun h => absurd hg h, fun h => absurd hg h⟩
  · have hc : ¬ (E.isEmpty || G.isEmpty || E.length != G.length) = true := by
      simpa [List.isEmpty_iff, or_assoc, and_assoc] using hg
    have hE : E ≠ [] := fun h => hg (Or.inl h)
    have hlen : E.length = G.length := by
      by_contra h; exact hg (Or.inr (Or.inr h))
    have h0 : DrawTrajectory E G R t frames =
        (displayLoop E G R t frames).map fun drawn => .createWindow :: drawn := by
      simp only [DrawTrajectory, hc, if_false]
      cases displayLoop E G R t frames <;> rfl
    refine ⟨⟨fun h => absurd h hg, fun h => ?_⟩, fun _ => h0, fun _ hN => ?_⟩
    · rw [h0] at h
      cases hd : displayLoop E G R t frames with
      | error e => rw [hd] at h; cases h
      | ok d =>
        rw [hd] at h
        simp [Except.map] at h
    · have hf := drawFrame_eq E G R t hE hlen hN
      refine ⟨_, hf, ?_⟩
      rw [h0, displayLoop_eq E G R t _ hf frames]
      rfl

/-- Counterexample to C10 as stated: `manyPoses` passes the guard with
`2^31 + 5` poses, but `const int N` is then `-2^31 + 5`, the bound `N - 1`
wraps around in the conversion to `size_t` and the frame reads past the end
of the trajectories. -/
theorem drawFrame_overruns_on_manyPoses :
    manyPoses ≠ [] ∧ manyPoses.length = 2 ^ 31 + 5 ∧
      toInt manyPoses.length = -2 ^ 31 + 5 ∧
      toSizeT (toInt manyPoses.length - 1) = 18446744071562067972 ∧
      toSizeT (toInt manyPoses.length - 1) ≠ manyPoses.length - 1 ∧
      drawFrame manyPoses manyPoses 1 0 = .error .outOfBounds := by
  have hlen : manyPoses.length = 2 ^ 31 + 5 := List.length_replicate _ _
  have hne : manyPoses ≠ [] := by
    intro h
    rw [h] at hlen
    simp at hlen
  have hN : toInt manyPoses.length = -2 ^ 31 + 5 := by
    rw [hlen]
    unfold toInt
    norm_num
  have hS : toSizeT (toInt manyPoses.length - 1) = 18446744071562067972 := by
    rw [hN]
    unfold toSizeT
    norm_num
    rfl
  refine ⟨hne, hlen, hN, hS, ?_, ?_⟩
  · rw [hS, hlen]
    norm_num
  · have h := segmentLoop_overrun manyPoses manyPoses (1 : Mat3 ℚ) 0 18446744071562067972 rfl
      (by rw [hlen]; norm_num) (2 ^ 31 + 4) 0 (by rw [hlen]; norm_num)
    simp only [drawFrame, hS, h]
    rfl

/-- Claim C10, amended (renderer segment loop). For trajectories that pass the
guard, with `N < 2^31` poses each (so that `N` fits the `int` that holds it):
the bound `N - 1` does not wrap in the conversion to `size_t`; one frame
returns without a read past the end and emits `2 (N - 1)` segments; for every
`i < N - 1` the poses `i` and `i + 1` exist in both trajectories, segment `2 i`
is the estimated one from `R E_i + t` to `R E_(i+1) + t` and segment `2 i + 1`
the ground-truth one from `G_i` to `G_(i+1)`. For `N = 1` no segment is drawn. -/
theorem drawFrame_segments (E G : Trajectory K) (R : Mat3 K) (t : Vec3 K)
    (hE : E ≠ []) (hG : G ≠ []) (hlen : E.length = G.length) (hN : G.length < 2 ^ 31) :
    toSizeT (toInt G.length - 1) = G.length - 1 ∧
    drawFrame E G R t =
      .ok (DrawEvent.clear :: frameSegments E G R t (G.length - 1) ++ [DrawEvent.finishFrame]) ∧
    (frameSegments E G R t (G.length - 1)).length = 2 * (G.length - 1) ∧
    ∀ i, i < G.length - 1 →
      ∃ e1 e2 g1 g2, E[i]? = some e1 ∧ E[i + 1]? = some e2 ∧ G[i]? = some g1 ∧
        G[i + 1]? = some g2 ∧
        (frameSegments E G R t (G.length - 1))[2 * i]? =
          some (.line .blue (R *ᵥ e1.translation + t) (R *ᵥ e2.translation + t)) ∧
        (frameSegments E G R t (G.length - 1))[2 * i + 1]? =
          some (.line .red g1.translation g2.translation) := by
  have hn : G.length ≠ 0 := fun h => hG (List.length_eq_zero.mp h)
  refine ⟨toSizeT_pred G.length hn hN, drawFrame_eq E G R t hE hlen hN,
    frameSegments_length E G R t _, fun i hi => ?_⟩
  have h1 : i < E.length := by omega
  have h2 : i + 1 < E.length := by omega
  have h3 : i < G.length := by omega
  have h4 : i + 1 < G.length := by omega
  refine ⟨E[i], E[i + 1], G[i], G[i + 1], List.getElem?_eq_getElem h1,
    List.getElem?_eq_getElem h2, List.getElem?_eq_getElem h3, List.getElem?_eq_getElem h4, ?_⟩
  have h := frameSegments_getElem E G R t (G.length - 1) i hi
  simpa [pt, List.getElem?_eq_getElem h1, List.getElem?_eq_getElem h2,
    List.getElem?_eq_getElem h3, List.getElem?_eq_getElem h4] using h

/-- Witness of C10 amended: the two-point trajectories `segmentE`, `segmentG`
drawn with `R = flipZ`, `t = (1, 1, 1)`. -/
theorem drawFrame_segments_witness :
    segmentE ≠ [] ∧ segmentG ≠ [] ∧ segmentE.length = segmentG.length ∧
    segmentG.length < 2 ^ 31 ∧
    toSizeT (toInt segmentG.length - 1) = segmentG.length - 1 ∧
    drawFrame segmentE segmentG flipZ ![1, 1, 1] =
      .ok (DrawEvent.clear ::
        frameSegments segmentE segmentG flipZ ![1, 1, 1] (segmentG.length - 1) ++
          [DrawEvent.finishFrame]) ∧
    (frameSegments segmentE segmentG flipZ ![1, 1, 1] (segmentG.length - 1)).length =
      2 * (segmentG.length - 1) ∧
    ∀ i, i < segmentG.length - 1 →
      ∃ e1 e2 g1 g2, segmentE[i]? = some e1 ∧ segmentE[i + 1]? = some e2 ∧
        segmentG[i]? = some g1 ∧ segmentG[i + 1]? = some g2 ∧
        (frameSegments segmentE segmentG flipZ ![1, 1, 1] (segmentG.length - 1))[2 * i]? =
          some (.line .blue (flipZ *ᵥ e1.translation + ![1, 1, 1])
            (flipZ *ᵥ e2.translation + ![1, 1, 1])) ∧
        (frameSegments segmentE segmentG flipZ ![1, 1, 1] (segmentG.length - 1))[2 * i + 1]? =
          some (.line .red g1.translation g2.translation) :=
  ⟨by simp [segmentE], by simp [segmentG], rfl, by simp [segmentG],
    drawFrame_segments segmentE segmentG flipZ ![1, 1, 1] (by simp [segmentE])
      (by simp [segmentG]) rfl (by simp [segmentG])⟩

end ClaimsField

section ClaimsOrdered

variable {K : Type} [LinearOrderedField K]

end ClaimsOrdered

section ClaimsLoader

variable {K : Type} [Zero K]

theorem getElem?_eq_some_getD (v : List K) (i : Nat) (h : i < v.length) :
    v[i]? = some (v.getD i 0) := by
  simp [List.getD_eq_getElem?_getD, List.getElem?_eq_getElem h]

/-- Claim C8 (loader record extraction). For a stream of `n` numbers `v`,
`LoadTrajectory` appends `n / 16` poses to each of `estimated` and
`ground_truth` (the `n % 16` trailing numbers are dropped), so that the two
outputs have equal length whenever the vectors passed in do; the translation
of the `k`-th appended estimated pose is `(v[16k+1], v[16k+2], v[16k+3])` and
that of the `k`-th appended ground-truth pose is
`(v[16k+9], v[16k+10], v[16k+11])`. -/
theorem LoadTrajectory_records (v : List K) (value0 : Nat → K) (e0 g0 : Trajectory K) :
    ∃ newE newG : Trajectory K,
      LoadTrajectory v value0 e0 g0 = (e0 ++ newE, g0 ++ newG) ∧
      newE.length = v.length / 16 ∧ newG.length = v.length / 16 ∧
      (e0.length = g0.length →
        (LoadTrajectory v value0 e0 g0).1.length = (LoadTrajectory v value0 e0 g0).2.length) ∧
      ∀ k, k < v.length / 16 →
        ∃ pe pg, newE[k]? = some pe ∧ newG[k]? = some pg ∧
          v[16 * k + 1]? = some (pe.translation 0) ∧
          v[16 * k + 2]? = some (pe.translation 1) ∧
          v[16 * k + 3]? = some (pe.translation 2) ∧
          v[16 * k + 9]? = some (pg.translation 0) ∧
          v[16 * k + 10]? = some (pg.translation 1) ∧
          v[16 * k + 11]? = some (pg.translation 2) := by
  obtain ⟨-, hE, hG, -⟩ := loader_invariant value0 e0 g0 v
  have hload : LoadTrajectory v value0 e0 g0 =
      (e0 ++ (List.range (v.length / 16)).map (recordE v),
        g0 ++ (List.range (v.length / 16)).map (recordG v)) := by
    simp only [LoadTrajectory, hE, hG]
  refine ⟨(List.range (v.length / 16)).map (recordE v),
    (List.range (v.length / 16)).map (recordG v), hload, by simp, by simp, ?_, fun k hk => ?_⟩
  · intro h0
    rw [hload]
    simp [h0]
  · have h1 : 16 * k + 16 ≤ v.length := by omega
    refine ⟨recordE v k, recordG v k, ?_, ?_, ?_, ?_, ?_, ?_, ?_, ?_⟩
    · simp [List.getElem?_map, List.getElem?_range hk]
    · simp [List.getElem?_map, List.getElem?_range hk]
    · simpa [recordE] using getElem?_eq_some_getD v (16 * k + 1) (by omega)
    · simpa [recordE] using getElem?_eq_some_getD v (16 * k + 2) (by omega)
    · simpa [recordE] using getElem?_eq_some_getD v (16 * k + 3) (by omega)
    · simpa [recordG] using getElem?_eq_some_getD v (16 * k + 9) (by omega)
    · simpa [recordG] using getElem?_eq_some_getD v (16 * k + 10) (by omega)
    · simpa [recordG] using getElem?_eq_some_getD v (16 * k + 11) (by omega)

end ClaimsLoader

end TrajectoryMatching
